import Mathlib

/-!
Shallow embedding of the DFA core of the fsa-langex repository
(src/RL/dfa.h, src/RL/dfa.cpp, src/RL/rl_fsa.h), together with theorems
checking the specification's claims against it.

Representation choices.  The dense-identifier draft of src/RL/dfa.cpp is
embedded: states are the identifiers 0, 1, ..., num_states - 1, an
unordered_map is embedded as an association list whose entry order stands
for the (unspecified) iteration order of the hash map, and vector<bool>
is List Bool.  A vector write v[i] = true never grows a C++ vector and
is undefined behaviour when i is out of range; it is embedded as
List.set, which leaves the list unchanged out of range (what C4 and C6
turn on is only that the vector is never resized, which holds under any
reading of the C++).
-/

namespace RL

/-- Association-list lookup: the embedding of unordered_map find / count / at.
Returns the value of the first entry with the given key, if any. -/
def lookupA {α β : Type} [DecidableEq α] : List (α × β) → α → Option β
  | [], _ => none
  | (k, v) :: rest, k0 => if k0 = k then some v else lookupA rest k0

/-- Association-list write: the embedding of map[k] = v.  Replaces the first
entry with key k, or appends a new entry when the key is absent. -/
def updateA {α β : Type} [DecidableEq α] : List (α × β) → α → β → List (α × β)
  | [], k, v => [(k, v)]
  | (k0, v0) :: rest, k, v =>
      if k = k0 then (k0, v) :: rest else (k0, v0) :: updateA rest k v

/-- The key set of an association list has no duplicates: the standing
invariant of any list that embeds an unordered_map. -/
def NoDupKeys {α β : Type} (l : List (α × β)) : Prop :=
  (l.map Prod.fst).Nodup

instance {α β : Type} [DecidableEq α] (l : List (α × β)) :
    Decidable (NoDupKeys l) :=
  inferInstanceAs (Decidable ((l.map Prod.fst).Nodup))

/-- State identifiers: DFA::node_id_t (see src/RL/dfa.cpp lines 12-19). -/
abbrev node_id : Type := Nat

/-- Per-state transition table, unordered_map over char:
DFA::transition_tb_t::mapped_type. -/
abbrev StateTb : Type := List (Char × node_id)

/-- Whole transition table, unordered_map over node_id:
DFA::transition_tb_t. -/
abbrev TransTb : Type := List (node_id × StateTb)

/-- The two-level lookup on a raw transition table; DFA::delta
(src/RL/dfa.cpp lines 299-316) is exactly this applied to the automaton's
table: if the state has a transition table and that table has an entry
for the character, return the target, else none. -/
def deltaTb (tb : TransTb) (q : node_id) (c : Char) : Option node_id :=
  match lookupA tb q with
  | none => none
  | some st => lookupA st c

/-- The automaton record of the dense-id draft: num_states, transitions,
start_state, accept_states (src/RL/dfa.cpp; spec section 3). -/
structure DFA where
  num_states : Nat
  transitions : TransTb
  start_state : node_id
  accept_states : List Bool
deriving DecidableEq

/-- src/RL/dfa.cpp lines 299-316 (DFA::delta). -/
def DFA.delta (M : DFA) (q : node_id) (c : Char) : Option node_id :=
  deltaTb M.transitions q c

/-- Modelled from the spec: the dense-id draft's whole-string evaluator body
is not under src (dfa.cpp line 277 forwards to a template member whose
dense-id definition is missing; src/RL/dfa.h lines 96-109 hold the
pointer-draft loop).  Per spec section 4.1 an automaton with n = 0 rejects
every input without invoking step, so the initial current state is none
when num_states = 0 and the start state otherwise. -/
def DFA.initState (M : DFA) : Option node_id :=
  if M.num_states = 0 then none else some M.start_state

/-- The evaluation loop of src/RL/dfa.h lines 96-109: step while input
remains and the current state is not null; a null current state ends the
walk and no further symbols are read. -/
def evalFrom (M : DFA) : Option node_id → List Char → Option node_id
  | none, _ => none
  | some q, [] => some q
  | some q, c :: cs => evalFrom M (M.delta q c) cs

/-- Accept-flag read accept_states[q]; out of range reads as false, which a
well-formed automaton never exercises. -/
def DFA.isAccept (M : DFA) (q : node_id) : Bool :=
  M.accept_states.getD q false

/-- Whole-string evaluation: return curr_node bound and accepting
(src/RL/dfa.h line 108). -/
def DFA.evaluate (M : DFA) (s : List Char) : Bool :=
  match evalFrom M M.initState s with
  | none => false
  | some q => M.isAccept q

/-- Instrumented copy of the evaluation loop that counts how many times the
step function delta is invoked. -/
def evalSteps (M : DFA) : Option node_id → List Char → Nat
  | none, _ => 0
  | some _, [] => 0
  | some q, c :: cs => 1 + evalSteps M (M.delta q c) cs

def DFA.evalStepCount (M : DFA) (s : List Char) : Nat :=
  evalSteps M M.initState s

/-- Modelled from the spec: the dense-id draft's class declaration and
default constructor are not under src.  dfa.cpp's empty_string() pushes one
entry onto a default-constructed DFA's accept vector (so the default
vectors start empty), matching the zero-state empty-language form of spec
section 3. -/
def DFA.default0 : DFA :=
  { num_states := 0, transitions := [], start_state := 0, accept_states := [] }

/-- src/RL/dfa.cpp lines 260-264 (DFA::clear): num_states becomes 0 and the
transition table and accept vector are cleared; start_state is not
written. -/
def DFA.clear (M : DFA) : DFA :=
  { M with num_states := 0, transitions := [], accept_states := [] }

/-- src/RL/dfa.cpp lines 266-275 (DFA::empty_string): one accepting state
with no transitions, built by push_back onto a default-constructed
automaton. -/
def DFA.empty_string : DFA :=
  { DFA.default0 with
      num_states := 1,
      accept_states := DFA.default0.accept_states ++ [true],
      start_state := 0 }

/-- src/RL/dfa.h lines 82-94 (the no-argument constructor DFA::DFA calling
config_empty_string, pointer draft): one freshly allocated accepting node
with no transitions, set as start state.  The single node's pointer
identity is encoded as index 0. -/
def DFA.defaultDFA : DFA :=
  { num_states := 1, transitions := [], start_state := 0, accept_states := [true] }

/-- src/RL/dfa.cpp lines 22-33 (retrieve_accepting_indices): the indices i
with F[i] set, in ascending order. -/
def retrieve_accepting_indices (F : List Bool) : List node_id :=
  (List.range F.length).filter (fun i => F.getD i false)

/-- src/RL/dfa.cpp lines 39-63 (keys_intersection): the characters present
in both per-state transition tables.  The C++ returns them sorted through
std::set; here they come in first-table key order, which no caller
observes (each is used once as the key of a per-pair write). -/
def keys_intersection (ta tb : StateTb) : List Char :=
  (ta.map Prod.fst).filter (fun c => (lookupA tb c).isSome)

/-- Embedding of out[q_prime][c] = v on the two-level unordered_map:
operator[] creates the outer entry when absent, then the character entry
is written. -/
def tbSet (out : TransTb) (q : node_id) (c : Char) (v : node_id) : TransTb :=
  updateA out q (updateA ((lookupA out q).getD []) c v)

/-- src/RL/dfa.cpp lines 66-115 (construct_delta_intersection): for every
pair of states owning transition tables and every character defined on
both sides, write flat(q_a, q_b) -c-> flat(delta1(q_a, c), delta2(q_b, c)).
The at(c) calls are total because c comes from the key intersection; their
embedding defaults to 0 on the impossible miss. -/
def construct_delta_intersection (tb_a tb_b : TransTb)
    (flat : node_id → node_id → node_id) : TransTb :=
  tb_a.foldl (fun out ea =>
    tb_b.foldl (fun out eb =>
      (keys_intersection ea.2 eb.2).foldl (fun out c =>
        tbSet out (flat ea.1 eb.1) c
          (flat ((lookupA ea.2 c).getD 0) ((lookupA eb.2 c).getD 0))) out) out) []

/-- src/RL/dfa.cpp lines 117-167 (construct_delta_union): starts from the
intersection table; the two loop nests that follow bind locals and test
membership but neither loop body performs a write (dead code, spec section
9), so each is a fold that returns its accumulator unchanged. -/
def construct_delta_union (tb_a tb_b : TransTb)
    (flat : node_id → node_id → node_id) (_SA SB : Nat) : TransTb :=
  let out := construct_delta_intersection tb_a tb_b flat
  let out := tb_a.foldl (fun out ea =>
    ea.2.foldl (fun out _ce =>
      (List.range SB).foldl (fun out _j => out) out) out) out
  let out := tb_b.foldl (fun out _eb => out) out
  out

/-- The flattening closure of cross_product_construction (src/RL/dfa.cpp
lines 189-194): the pair (a, b) becomes a * S2 + b. -/
def flatten_indices (S2 a b : Nat) : node_id :=
  a * S2 + b

/-- src/RL/dfa.cpp lines 172-258 (cross_product_construction).  M_prime
starts default-constructed; num_states, transitions and start_state are
then assigned.  Accepting states are marked through accept_states[i] = true
on a vector that is never resized; the write is embedded as List.set (see
the file comment on out-of-range vector writes). -/
def cross_product_construction (M1 M2 : DFA)
    (intersection_construction : Bool) : DFA :=
  let S1 := M1.num_states
  let S2 := M2.num_states
  let flat := flatten_indices S2
  let trans :=
    if intersection_construction then
      construct_delta_intersection M1.transitions M2.transitions flat
    else
      construct_delta_union M1.transitions M2.transitions flat S1 S2
  let M1_accept_indices := retrieve_accepting_indices M1.accept_states
  let M2_accept_indices := retrieve_accepting_indices M2.accept_states
  let accept :=
    if intersection_construction then
      M1_accept_indices.foldl (fun acc i_qa =>
        M2_accept_indices.foldl (fun acc i_qb =>
          acc.set (flat i_qa i_qb) true) acc) DFA.default0.accept_states
    else
      let acc1 := M1_accept_indices.foldl (fun acc i_qa =>
        (List.range S2).foldl (fun acc j =>
          acc.set (flat i_qa j) true) acc) DFA.default0.accept_states
      M2_accept_indices.foldl (fun acc i_qb =>
        (List.range S1).foldl (fun acc i =>
          acc.set (flat i i_qb) true) acc) acc1
  { num_states := S1 * S2,
    transitions := trans,
    start_state := flat M1.start_state M2.start_state,
    accept_states := accept }

/-- src/RL/dfa.cpp lines 281-290 (DFA::intersection). -/
def DFA.intersection (M other : DFA) : DFA :=
  cross_product_construction M other true

/-- Modelled from the spec: DFA::union_or is declared (src/RL/dfa.h line 66)
but its dense-id body is not under src; spec section 4.2 builds union with
the same product construction, selected by the union flag. -/
def DFA.union_or (M other : DFA) : DFA :=
  cross_product_construction M other false

/-- src/RL/dfa.cpp lines 292-297 (DFA::complement): copy *this, flip every
accept bit of the copy, return it; nothing else is touched. -/
def DFA.complement (M : DFA) : DFA :=
  { M with accept_states := M.accept_states.map (fun b => !b) }

/-- Errors of automaton construction (spec section 7). -/
inductive DFAError : Type where
  | MalformedAutomaton
deriving DecidableEq

/-- Modelled from the spec: no validating constructor appears under src (the
dfa.h constructor at lines 82-94 takes no arguments and the dense-id class
declaration is missing); spec section 7 mandates that construction with an
out-of-range start state or an accept-set length mismatched to the state
count fails with MalformedAutomaton. -/
def DFA.construct (n : Nat) (tb : TransTb) (q0 : node_id) (F : List Bool) :
    Except DFAError DFA :=
  if q0 < n ∧ F.length = n then Except.ok (DFA.mk n tb q0 F)
  else Except.error DFAError.MalformedAutomaton

/-- State-passing form of DFA::intersection (a const method on a const
reference argument): the result together with both operands as left after
the call; no statement of cross_product_construction writes to an
operand, every write targets M_prime. -/
def intersectionCall (M other : DFA) : DFA × DFA × DFA :=
  (cross_product_construction M other true, M, other)

/-- State-passing form of DFA::union_or, as intersectionCall. -/
def unionCall (M other : DFA) : DFA × DFA × DFA :=
  (cross_product_construction M other false, M, other)

/-- State-passing form of DFA::complement: DFA comp = *this copies, the
flip writes to the copy, and *this is left unchanged. -/
def complementCall (M : DFA) : DFA × DFA :=
  let comp := M
  let comp := { comp with accept_states := comp.accept_states.map (fun b => !b) }
  (comp, M)

/-- State-passing form of void DFA::clear(): mutates *this in place. -/
def clearCall (M : DFA) : Unit × DFA :=
  ((), M.clear)

/-- Completeness over an alphabet A, the precondition of the complement law
(spec sections 4.3 and 8): every (state, symbol) pair with the state in
range and the symbol in the alphabet has a defined transition to an
in-range state, as an automaton completed with an explicit reject state
has. -/
def CompleteOn (M : DFA) (A : List Char) : Prop :=
  ∀ q, q < M.num_states → ∀ c, c ∈ A →
    ∃ q1, M.delta q c = some q1 ∧ q1 < M.num_states

/-- Soundness invariant of the intersection transition build: every defined
entry of the accumulator table comes from a pair of operand states whose
per-state tables both define the character. -/
def SoundTb (tb_a tb_b : TransTb) (flat : node_id → node_id → node_id)
    (out : TransTb) : Prop :=
  ∀ q c, (deltaTb out q c).isSome →
    ∃ a ta b tbb, (a, ta) ∈ tb_a ∧ (b, tbb) ∈ tb_b ∧ q = flat a b
      ∧ (lookupA ta c).isSome ∧ (lookupA tbb c).isSome

/-! ## General lemmas -/

theorem evalFrom_none (M : DFA) (s : List Char) : evalFrom M none s = none := by
  cases s <;> rfl

theorem delta_nil (n q0 : Nat) (F : List Bool) (q : node_id) (c : Char) :
    (DFA.mk n [] q0 F).delta q c = none := rfl

theorem evalSteps_none (M : DFA) (s : List Char) : evalSteps M none s = 0 := by
  cases s <;> rfl

theorem evalFrom_append (M : DFA) (s t : List Char) (oq : Option node_id) :
    evalFrom M oq (s ++ t) = evalFrom M (evalFrom M oq s) t := by
  induction s generalizing oq with
  | nil =>
    cases oq with
    | none => simp [evalFrom_none, evalFrom]
    | some q => rfl
  | cons c cs ih =>
    cases oq with
    | none => simp [evalFrom_none]
    | some q => simpa [evalFrom] using ih (M.delta q c)

theorem evalFrom_eq_foldl (M : DFA) (s : List Char) (oq : Option node_id) :
    evalFrom M oq s
      = s.foldl (fun oq c => oq.bind fun q => M.delta q c) oq := by
  induction s generalizing oq with
  | nil => cases oq <;> rfl
  | cons c cs ih =>
    cases oq with
    | none =>
      rw [evalFrom_none, List.foldl_cons]
      have hb : ((none : Option node_id).bind fun q => M.delta q c) = none := rfl
      rw [hb, ← ih none, evalFrom_none]
    | some q => simpa [evalFrom] using ih (M.delta q c)

theorem getD_map_not (l : List Bool) (q : Nat) (h : q < l.length) :
    (l.map (fun b => !b)).getD q false = !(l.getD q false) := by
  induction l generalizing q with
  | nil => simp at h
  | cons b bs ih =>
    cases q with
    | zero => simp
    | succ q => simpa using ih q (by simpa using h)

/-! ## Claim C2: complement and completion -/

/-- C2 counterexample: on the empty-string automaton, complement neither adds
a reject state nor routes any previously-undefined pair: the claim's added
state would make num_states grow by one and would give the undefined pair
(state 0, character a) a transition, and neither happens. -/
theorem claim2_counterexample :
    ¬ ((DFA.empty_string.complement).num_states
          = DFA.empty_string.num_states + 1
        ∧ ((DFA.empty_string.complement).delta 0 'a').isSome) := by
  decide

/-- C2 amended: complement(M) keeps the state count, the transition table and
the start state of M unchanged and only flips every accept bit; it completes
nothing.  Flipping is an involution, and on every in-range state the accept
flag of the complement is the negation of the flag in M. -/
theorem claim2_complement_only_flips (M : DFA) :
    (M.complement).num_states = M.num_states
      ∧ (M.complement).transitions = M.transitions
      ∧ (M.complement).start_state = M.start_state
      ∧ (M.complement).accept_states = M.accept_states.map (fun b => !b)
      ∧ (M.complement).complement = M
      ∧ ∀ q, q < M.accept_states.length →
          (M.complement).isAccept q = !(M.isAccept q) := by
  refine ⟨rfl, rfl, rfl, rfl, ?_, ?_⟩
  · cases M with
    | mk n tb q0 F => simp [DFA.complement, Function.comp_def, Bool.not_not]
  · intro q hq
    exact getD_map_not M.accept_states q hq

theorem claim2_witness :
    (DFA.empty_string.complement).accept_states
        = DFA.empty_string.accept_states.map (fun b => !b)
      ∧ (DFA.empty_string.complement).isAccept 0
        = !(DFA.empty_string.isAccept 0) :=
  ⟨(claim2_complement_only_flips DFA.empty_string).2.2.2.1,
   (claim2_complement_only_flips DFA.empty_string).2.2.2.2.2 0 (by decide)⟩

/-! ## Claim C4: structural invariants of produced automata -/

/-- C4 (code bug): the product construction never resizes the accept vector
it inherits from the default-constructed M_prime, so intersecting the
empty-string automaton with itself yields an automaton with one state but an
accept bit-vector of zero entries, in place of the exactly-n entries the
invariant demands. -/
theorem claim4_product_accept_vector_unsized :
    (DFA.empty_string.intersection DFA.empty_string).num_states = 1
      ∧ (DFA.empty_string.intersection DFA.empty_string).accept_states.length
        = 0 := by
  decide

/-! ## Claim C5: evaluate folds step and short-circuits -/

/-- C5: for every automaton and input, evaluate is the fold of the step
function delta over the input from the initial state, and it accepts
exactly when the fold survives the whole input and lands on an accepting
state; and whenever the fold over some input hits none, every extension of
that input is rejected, the remaining symbols never being read. -/
theorem claim5_evaluate_folds_step (M : DFA) (s t : List Char) :
    (∀ u : List Char, M.evaluate u = true ↔
        ∃ q, u.foldl (fun oq c => oq.bind fun q => M.delta q c) M.initState
              = some q
          ∧ M.isAccept q = true)
      ∧ (s.foldl (fun oq c => oq.bind fun q => M.delta q c) M.initState
            = none →
          M.evaluate (s ++ t) = false) := by
  constructor
  · intro u
    unfold DFA.evaluate
    rw [← evalFrom_eq_foldl]
    cases he : evalFrom M M.initState u with
    | none => simp
    | some q =>
      simp only [Option.some.injEq]
      constructor
      · intro hacc
        exact ⟨q, rfl, hacc⟩
      · rintro ⟨q1, rfl, hacc⟩
        exact hacc
  · intro h
    unfold DFA.evaluate
    rw [evalFrom_append, evalFrom_eq_foldl M s, h, evalFrom_none]

theorem claim5_witness :
    (DFA.empty_string.evaluate [] = true ↔
        ∃ q, List.foldl
              (fun oq c => oq.bind fun q => DFA.empty_string.delta q c)
              DFA.empty_string.initState []
            = some q
          ∧ DFA.empty_string.isAccept q = true)
      ∧ DFA.empty_string.evaluate (['a'] ++ ['b']) = false :=
  ⟨(claim5_evaluate_folds_step DFA.empty_string ['a'] ['b']).1 [],
   (claim5_evaluate_folds_step DFA.empty_string ['a'] ['b']).2 rfl⟩

/-! ## Claim C6: accept set of the union construction -/

/-- C6 (code bug): in the union construction the enumeration loops mark
accept_states[f(a, j)] and accept_states[f(i, b)] on a vector that was never
resized, so the marks land out of bounds: uniting the empty-string automaton
with itself, state 0 = f(0, 0) should accept (0 is accepting in both
operands) yet the result's accept vector is empty and accepts nothing. -/
theorem claim6_union_accept_marks_lost :
    DFA.empty_string.isAccept 0 = true
      ∧ (DFA.empty_string.union_or DFA.empty_string).isAccept
          (flatten_indices 1 0 0) = false
      ∧ (DFA.empty_string.union_or DFA.empty_string).accept_states = [] := by
  decide

/-! ## Claim C7: clear resets to the zero-state empty-language automaton -/

/-- C7: clear yields the zero-state form (no states, no transitions, no
accept entries), and evaluation on the cleared automaton rejects every
input, the empty one included, invoking the step function zero times. -/
theorem claim7_clear_resets (M : DFA) (s : List Char) :
    (M.clear).num_states = 0
      ∧ (M.clear).transitions = []
      ∧ (M.clear).accept_states = []
      ∧ (M.clear).evaluate s = false
      ∧ (M.clear).evalStepCount s = 0 := by
  refine ⟨rfl, rfl, rfl, ?_, ?_⟩
  · unfold DFA.evaluate DFA.initState
    simp [DFA.clear, evalFrom_none]
  · unfold DFA.evalStepCount DFA.initState
    simp [DFA.clear, evalSteps_none]

/-! ## Claim C8: construction validation -/

/-- C8: constructing with an out-of-range start state or an accept-set
length different from the state count fails with MalformedAutomaton, and
well-formed inputs construct successfully. -/
theorem claim8_construct_validation (n : Nat) (tb : TransTb) (q0 : node_id)
    (F : List Bool) :
    ((n ≤ q0 ∨ F.length ≠ n) →
        DFA.construct n tb q0 F = Except.error DFAError.MalformedAutomaton)
      ∧ (q0 < n → F.length = n →
        DFA.construct n tb q0 F = Except.ok (DFA.mk n tb q0 F)) := by
  constructor
  · intro h
    unfold DFA.construct
    have hc : ¬ (q0 < n ∧ F.length = n) := by
      rintro ⟨h1, h2⟩
      rcases h with h | h
      · exact absurd (Nat.lt_of_lt_of_le h1 h) (Nat.lt_irrefl q0)
      · exact h h2
    rw [if_neg hc]
  · intro h1 h2
    unfold DFA.construct
    rw [if_pos ⟨h1, h2⟩]

theorem claim8_witness :
    (DFA.construct 1 [] 2 [true]
        = Except.error DFAError.MalformedAutomaton)
      ∧ (DFA.construct 1 [] 0 [true]
        = Except.ok (DFA.mk 1 [] 0 [true])) :=
  ⟨(claim8_construct_validation 1 [] 2 [true]).1 (Or.inl (by decide)),
   (claim8_construct_validation 1 [] 0 [true]).2 (by decide) (by decide)⟩

/-! ## Claim C9: closure operations leave their operands unchanged -/

/-- C9: in the state-passing reading of the calls, intersection, union and
complement return their operands exactly as they received them, while clear
does mutate its receiver in place. -/
theorem claim9_operations_preserve_operands (M1 M2 : DFA) :
    (intersectionCall M1 M2).2 = (M1, M2)
      ∧ (unionCall M1 M2).2 = (M1, M2)
      ∧ (complementCall M1).2 = M1
      ∧ (clearCall DFA.empty_string).2 ≠ DFA.empty_string := by
  refine ⟨rfl, rfl, rfl, by decide⟩

/-! ## Claim C10: the default-constructed DFA is the empty-string automaton -/

/-- C10: the no-argument constructor of src/RL/dfa.h builds an automaton
with exactly one state, which is the start state, accepting, and without
transitions; it accepts exactly the empty string and evaluates every input
the same way as the empty_string() factory of src/RL/dfa.cpp. -/
theorem claim10_default_dfa_is_empty_string (s : List Char) :
    DFA.defaultDFA.num_states = 1
      ∧ DFA.defaultDFA.start_state = 0
      ∧ DFA.defaultDFA.isAccept DFA.defaultDFA.start_state = true
      ∧ DFA.defaultDFA.transitions = []
      ∧ (DFA.defaultDFA.evaluate s = true ↔ s = [])
      ∧ DFA.defaultDFA.evaluate s = DFA.empty_string.evaluate s := by
  refine ⟨rfl, rfl, rfl, rfl, ?_, rfl⟩
  cases s with
  | nil => simp [DFA.evaluate, DFA.initState, DFA.defaultDFA, evalFrom,
      DFA.isAccept]
  | cons c cs =>
    simp [DFA.evaluate, DFA.initState, DFA.defaultDFA, evalFrom, delta_nil,
      evalFrom_none]

/-! ## Claim C3: the complement law on complete automata -/

theorem delta_complement (M : DFA) (q : node_id) (c : Char) :
    (M.complement).delta q c = M.delta q c := rfl

theorem evalFrom_complement (M : DFA) (s : List Char) (oq : Option node_id) :
    evalFrom (M.complement) oq s = evalFrom M oq s := by
  induction s generalizing oq with
  | nil => cases oq <;> rfl
  | cons c cs ih =>
    cases oq with
    | none => rw [evalFrom_none, evalFrom_none]
    | some q =>
      show evalFrom (M.complement) ((M.complement).delta q c) cs
          = evalFrom M (M.delta q c) cs
      rw [delta_complement]
      exact ih (M.delta q c)

theorem evalFrom_in_range (M : DFA) (A : List Char) (hc : CompleteOn M A)
    (s : List Char) (q : node_id) (hq : q < M.num_states)
    (hs : ∀ c, c ∈ s → c ∈ A) :
    ∃ q1, evalFrom M (some q) s = some q1 ∧ q1 < M.num_states := by
  induction s generalizing q with
  | nil => exact ⟨q, rfl, hq⟩
  | cons c cs ih =>
    obtain ⟨q1, hd, hq1⟩ := hc q hq c (hs c (by simp))
    have : evalFrom M (some q) (c :: cs) = evalFrom M (M.delta q c) cs := rfl
    rw [this, hd]
    exact ih q1 hq1 (fun d hd1 => hs d (by simp [hd1]))

/-- C3: for a well-formed automaton that is complete over the alphabet A
(as an automaton completed with an explicit reject state is), complement
evaluation is the negation of the original evaluation on every string over
A. -/
theorem claim3_complement_law (M : DFA) (A x : List Char)
    (hstart : M.start_state < M.num_states)
    (hlen : M.accept_states.length = M.num_states)
    (hc : CompleteOn M A)
    (hx : ∀ c, c ∈ x → c ∈ A) :
    (M.complement).evaluate x = !(M.evaluate x) := by
  have hn : ¬ (M.num_states = 0) := by
    intro h0
    rw [h0] at hstart
    exact Nat.not_lt_zero _ hstart
  obtain ⟨q1, he, hq1⟩ := evalFrom_in_range M A hc x M.start_state hstart hx
  have hinit : M.initState = some M.start_state := if_neg hn
  have hinitc : (M.complement).initState = some M.start_state := by
    show (if M.num_states = 0 then none else some M.start_state)
        = some M.start_state
    exact if_neg hn
  unfold DFA.evaluate
  rw [hinit, hinitc, evalFrom_complement, he]
  show (M.complement).isAccept q1 = !(M.isAccept q1)
  unfold DFA.isAccept
  show (M.accept_states.map (fun b => !b)).getD q1 false
      = !(M.accept_states.getD q1 false)
  exact getD_map_not M.accept_states q1 (by rw [hlen]; exact hq1)

theorem claim3_witness :
    ((DFA.mk 1 [(0, [('a', 0)])] 0 [false]).complement).evaluate ['a']
      = !((DFA.mk 1 [(0, [('a', 0)])] 0 [false]).evaluate ['a']) := by
  refine claim3_complement_law (DFA.mk 1 [(0, [('a', 0)])] 0 [false])
    ['a'] ['a'] (by decide) (by decide) ?_ (fun c h => h)
  intro q hq c hcA
  have hq0 : q = 0 := Nat.lt_one_iff.mp hq
  have hc0 : c = 'a' := by
    simpa using hcA
  subst hq0
  subst hc0
  exact ⟨0, rfl, Nat.zero_lt_one⟩

/-! ## Association-list and fold lemmas for the product construction -/

theorem lookupA_updateA {α β : Type} [DecidableEq α] (l : List (α × β))
    (k k0 : α) (v : β) :
    lookupA (updateA l k v) k0 = if k0 = k then some v else lookupA l k0 := by
  induction l with
  | nil =>
    by_cases h : k0 = k <;> simp [updateA, lookupA, h]
  | cons p rest ih =>
    obtain ⟨a, b⟩ := p
    by_cases hk : k = a
    · subst hk
      by_cases h0 : k0 = k <;> simp [updateA, lookupA, h0]
    · by_cases h0 : k0 = a
      · subst h0
        have hne : ¬ (k0 = k) := fun h1 => hk h1.symm
        simp [updateA, lookupA, hk, hne]
      · simp [updateA, lookupA, hk, h0, ih]

theorem lookupA_isSome_iff {α β : Type} [DecidableEq α] (l : List (α × β))
    (k : α) :
    (lookupA l k).isSome ↔ k ∈ l.map Prod.fst := by
  induction l with
  | nil => simp [lookupA]
  | cons p rest ih =>
    obtain ⟨a, b⟩ := p
    by_cases h : k = a <;> simp [lookupA, h, ih]

theorem lookupA_mem {α β : Type} [DecidableEq α] (l : List (α × β)) (k : α)
    (v : β) (h : lookupA l k = some v) : (k, v) ∈ l := by
  induction l with
  | nil => simp [lookupA] at h
  | cons p rest ih =>
    obtain ⟨a, b⟩ := p
    by_cases hk : k = a
    · subst hk
      simp [lookupA] at h
      simp [h]
    · simp [lookupA, hk] at h
      simp [ih h]

theorem lookupA_nodup {α β : Type} [DecidableEq α] (l : List (α × β))
    (hnd : NoDupKeys l) (k : α) (v : β) (h : (k, v) ∈ l) :
    lookupA l k = some v := by
  induction l with
  | nil => simp at h
  | cons p rest ih =>
    obtain ⟨a, b⟩ := p
    simp only [NoDupKeys, List.map_cons, List.nodup_cons] at hnd
    rcases List.mem_cons.mp h with h1 | h1
    · cases h1
      simp [lookupA]
    · have hk : ¬ (k = a) := by
        intro h2
        subst h2
        exact hnd.1 (List.mem_map.mpr ⟨(k, v), h1, rfl⟩)
      simp only [lookupA, if_neg hk]
      exact ih hnd.2 h1

theorem deltaTb_tbSet (out : TransTb) (q : node_id) (c : Char) (v : node_id)
    (q0 : node_id) (c0 : Char) :
    deltaTb (tbSet out q c v) q0 c0
      = if q0 = q ∧ c0 = c then some v else deltaTb out q0 c0 := by
  by_cases hq : q0 = q
  · subst hq
    unfold deltaTb tbSet
    rw [lookupA_updateA, if_pos rfl]
    show lookupA (updateA ((lookupA out q0).getD []) c v) c0 = _
    rw [lookupA_updateA]
    by_cases hc : c0 = c
    · rw [if_pos hc, if_pos ⟨rfl, hc⟩]
    · rw [if_neg hc, if_neg (fun h => hc h.2)]
      cases h : lookupA out q0 with
      | none => simp [lookupA]
      | some st => simp
  · unfold deltaTb tbSet
    rw [lookupA_updateA, if_neg hq, if_neg (fun h => hq h.1)]

theorem deltaTb_tbSet_isSome (out : TransTb) (q : node_id) (c : Char)
    (v : node_id) (q0 : node_id) (c0 : Char)
    (h : (deltaTb out q0 c0).isSome) :
    (deltaTb (tbSet out q c v) q0 c0).isSome := by
  rw [deltaTb_tbSet]
  by_cases hx : q0 = q ∧ c0 = c
  · simp [hx]
  · simpa [hx] using h

theorem foldl_inv {α β : Type} (P : α → Prop) (g : α → β → α) (l : List β)
    (a : α) (h0 : P a)
    (hstep : ∀ acc x, x ∈ l → P acc → P (g acc x)) : P (l.foldl g a) := by
  induction l generalizing a with
  | nil => exact h0
  | cons x xs ih =>
    exact ih (g a x) (hstep a x (by simp) h0)
      (fun acc y hy hP => hstep acc y (by simp [hy]) hP)

theorem foldl_const {α β : Type} (l : List β) (a : α) :
    l.foldl (fun x _ => x) a = a := by
  induction l generalizing a with
  | nil => rfl
  | cons x xs ih => exact ih a

theorem construct_delta_union_eq (tb_a tb_b : TransTb)
    (flat : node_id → node_id → node_id) (SA SB : Nat) :
    construct_delta_union tb_a tb_b flat SA SB
      = construct_delta_intersection tb_a tb_b flat := by
  simp only [construct_delta_union, foldl_const]

theorem charFold_isSome (q : node_id) (val : Char → node_id) (cs : List Char)
    (out : TransTb) (c : Char) (hc : c ∈ cs) :
    (deltaTb (cs.foldl (fun o c0 => tbSet o q c0 (val c0)) out) q c).isSome := by
  induction cs generalizing out with
  | nil => cases hc
  | cons d ds ih =>
    rw [List.foldl_cons]
    rcases List.mem_cons.mp hc with h | h
    · subst h
      apply foldl_inv (fun o => (deltaTb o q c).isSome)
      · rw [deltaTb_tbSet]
        simp
      · intro acc x _ hP
        exact deltaTb_tbSet_isSome acc q x (val x) q c hP
    · exact ih (tbSet out q d (val d)) h

theorem charFold_pres (q1 : node_id) (val : Char → node_id) (cs : List Char)
    (out : TransTb) (q : node_id) (c : Char)
    (h : (deltaTb out q c).isSome) :
    (deltaTb (cs.foldl (fun o c0 => tbSet o q1 c0 (val c0)) out) q c).isSome :=
  foldl_inv (fun o => (deltaTb o q c).isSome) _ cs out h
    (fun acc x _ hP => deltaTb_tbSet_isSome acc q1 x (val x) q c hP)

theorem innerFold_pres (tb_b : TransTb) (ea : node_id × StateTb)
    (flat : node_id → node_id → node_id) (out : TransTb) (q : node_id)
    (c : Char) (h : (deltaTb out q c).isSome) :
    (deltaTb (tb_b.foldl (fun out eb =>
        (keys_intersection ea.2 eb.2).foldl (fun out c0 =>
          tbSet out (flat ea.1 eb.1) c0
            (flat ((lookupA ea.2 c0).getD 0) ((lookupA eb.2 c0).getD 0))) out)
      out) q c).isSome :=
  foldl_inv (fun o => (deltaTb o q c).isSome) _ tb_b out h
    (fun acc _eb _ hP => charFold_pres _ _ _ acc q c hP)

theorem sound_intersection (tb_a tb_b : TransTb)
    (flat : node_id → node_id → node_id) :
    SoundTb tb_a tb_b flat (construct_delta_intersection tb_a tb_b flat) := by
  unfold construct_delta_intersection
  apply foldl_inv (SoundTb tb_a tb_b flat)
  · intro q c h
    simp [deltaTb, lookupA] at h
  · intro acc ea hea hP
    apply foldl_inv (SoundTb tb_a tb_b flat)
    · exact hP
    · intro acc2 eb heb hP2
      apply foldl_inv (SoundTb tb_a tb_b flat)
      · exact hP2
      · intro acc3 c0 hc0 hP3
        intro q c h
        rw [deltaTb_tbSet] at h
        by_cases hx : q = flat ea.1 eb.1 ∧ c = c0
        · obtain ⟨hq, hcc⟩ := hx
          subst hcc
          obtain ⟨h1, h2⟩ := List.mem_filter.mp hc0
          refine ⟨ea.1, ea.2, eb.1, eb.2, by simpa using hea,
            by simpa using heb, hq, ?_, ?_⟩
          · exact (lookupA_isSome_iff ea.2 c).mpr h1
          · simpa using h2
        · rw [if_neg hx] at h
          exact hP3 q c h

theorem complete_intersection (tb_a tb_b : TransTb)
    (flat : node_id → node_id → node_id) (a : node_id) (ta : StateTb)
    (b : node_id) (tbb : StateTb) (c : Char)
    (ha : (a, ta) ∈ tb_a) (hb : (b, tbb) ∈ tb_b)
    (hca : (lookupA ta c).isSome) (hcb : (lookupA tbb c).isSome) :
    (deltaTb (construct_delta_intersection tb_a tb_b flat)
      (flat a b) c).isSome := by
  obtain ⟨A1, A2, rfl⟩ := List.append_of_mem ha
  unfold construct_delta_intersection
  rw [List.foldl_append, List.foldl_cons]
  apply foldl_inv (fun o => (deltaTb o (flat a b) c).isSome)
  · obtain ⟨B1, B2, rfl⟩ := List.append_of_mem hb
    rw [List.foldl_append, List.foldl_cons]
    apply foldl_inv (fun o => (deltaTb o (flat a b) c).isSome)
    · apply charFold_isSome
      refine List.mem_filter.mpr ⟨?_, ?_⟩
      · exact (lookupA_isSome_iff ta c).mp hca
      · simpa using hcb
    · intro acc eb _ hP
      exact charFold_pres _ _ _ acc _ _ hP
  · intro acc ea _ hP
    exact innerFold_pres _ _ _ acc _ _ hP

theorem flatten_inj (S2 a b a1 b1 : Nat) (hb : b < S2) (hb1 : b1 < S2)
    (h : flatten_indices S2 a b = flatten_indices S2 a1 b1) :
    a = a1 ∧ b = b1 := by
  unfold flatten_indices at h
  have hS : 0 < S2 := Nat.lt_of_le_of_lt (Nat.zero_le b) hb
  have hmod : (a * S2 + b) % S2 = b := by
    rw [Nat.mul_comm a S2, Nat.mul_add_mod]
    exact Nat.mod_eq_of_lt hb
  have hmod1 : (a1 * S2 + b1) % S2 = b1 := by
    rw [Nat.mul_comm a1 S2, Nat.mul_add_mod]
    exact Nat.mod_eq_of_lt hb1
  have hbb : b = b1 := by rw [← hmod, ← hmod1, h]
  refine ⟨?_, hbb⟩
  have h2 := h
  rw [hbb] at h2
  have h3 : a * S2 = a1 * S2 := Nat.add_right_cancel h2
  exact Nat.eq_of_mul_eq_mul_right hS h3

/-! ## Claim C1: union and intersection share one transition table -/

/-- C1: for every pair of transition tables the union construction returns
exactly the table the intersection construction returns (the one-side-
undefined loops of construct_delta_union add nothing), whole automata
included; and on that common table, taking the flattening f(a,b) = a*S2+b
of cross_product_construction, a transition for (f(a,b), c) exists exactly
when both operand steps are defined, given the unordered_map key invariants
(no duplicate keys, second-operand states below S2). -/
theorem claim1_union_delta_eq_intersection_delta
    (tb_a tb_b : TransTb) (SA S2 : Nat) (a b : node_id) (c : Char)
    (M1 M2 : DFA)
    (hA : NoDupKeys tb_a) (hB : NoDupKeys tb_b)
    (hBnd : ∀ p, p ∈ tb_b → p.1 < S2) (hb : b < S2) :
    construct_delta_union tb_a tb_b (flatten_indices S2) SA S2
        = construct_delta_intersection tb_a tb_b (flatten_indices S2)
      ∧ (M1.union_or M2).transitions = (M1.intersection M2).transitions
      ∧ ((deltaTb (construct_delta_union tb_a tb_b (flatten_indices S2) SA S2)
            (flatten_indices S2 a b) c).isSome
          ↔ (deltaTb tb_a a c).isSome ∧ (deltaTb tb_b b c).isSome) := by
  refine ⟨construct_delta_union_eq tb_a tb_b (flatten_indices S2) SA S2,
    ?_, ?_⟩
  · show (cross_product_construction M1 M2 false).transitions
      = (cross_product_construction M1 M2 true).transitions
    simp [cross_product_construction, construct_delta_union_eq]
  · rw [construct_delta_union_eq]
    constructor
    · intro h
      obtain ⟨a1, ta1, b1, tbb1, hma, hmb, heq, hla, hlb⟩ :=
        sound_intersection tb_a tb_b (flatten_indices S2) _ _ h
      have hb1 : b1 < S2 := hBnd (b1, tbb1) hmb
      obtain ⟨rfl, rfl⟩ := flatten_inj S2 a b a1 b1 hb hb1 heq
      constructor
      · unfold deltaTb
        rw [lookupA_nodup tb_a hA a ta1 hma]
        exact hla
      · unfold deltaTb
        rw [lookupA_nodup tb_b hB b tbb1 hmb]
        exact hlb
    · rintro ⟨h1, h2⟩
      unfold deltaTb at h1 h2
      cases e1 : lookupA tb_a a with
      | none =>
        rw [e1] at h1
        simp at h1
      | some ta =>
        cases e2 : lookupA tb_b b with
        | none =>
          rw [e2] at h2
          simp at h2
        | some tbb =>
          rw [e1] at h1
          rw [e2] at h2
          exact complete_intersection tb_a tb_b (flatten_indices S2) a ta
            b tbb c (lookupA_mem tb_a a ta e1) (lookupA_mem tb_b b tbb e2)
            h1 h2

theorem claim1_witness :
    construct_delta_union [(0, [('a', 1)])] [(0, [('a', 0)])]
        (flatten_indices 1) 2 1
      = construct_delta_intersection [(0, [('a', 1)])] [(0, [('a', 0)])]
        (flatten_indices 1)
    ∧ (DFA.empty_string.union_or DFA.empty_string).transitions
      = (DFA.empty_string.intersection DFA.empty_string).transitions
    ∧ ((deltaTb (construct_delta_union [(0, [('a', 1)])] [(0, [('a', 0)])]
          (flatten_indices 1) 2 1) (flatten_indices 1 0 0) 'a').isSome
        ↔ (deltaTb [(0, [('a', 1)])] 0 'a').isSome
          ∧ (deltaTb [(0, [('a', 0)])] 0 'a').isSome) :=
  claim1_union_delta_eq_intersection_delta [(0, [('a', 1)])]
    [(0, [('a', 0)])] 2 1 0 0 'a' DFA.empty_string DFA.empty_string
    (by decide) (by decide) (by decide) (by decide)

end RL
